import Mathlib

/-!
Shallow embedding of the `draco-gltf-rs` crate (files `src/lib.rs` and
`src/mapping.rs`): a converter between glTF's `KHR_draco_mesh_compression`
extension metadata and the raw byte output of an external Draco decoding
engine.

Modelling conventions:
* Rust bytes (`u8`) are `Nat` values; where a theorem needs them in range we
  add an explicit `< 256` hypothesis.
* Rust slices are `List Nat`; a Rust indexing/slicing operation that can
  panic is modelled by the `PResult.panic` outcome.
* Rust `f32` values are modelled as exact rationals (`ℚ`): the IEEE-754
  binary32 bit pattern of a decoded float is interpreted exactly
  (NaN/infinity patterns, which no claim touches, are collapsed to 0), and
  the normalisation divisions (`/ 255.0`, `/ 65535.0`) are modelled as exact
  rational divisions.  Every concrete value appearing in a theorem below is
  exactly representable, so the idealisation agrees with IEEE arithmetic
  there.
* Rust `HashMap` values are modelled as association lists in one fixed
  iteration order; insertion replaces an existing key in place, matching
  `HashMap::insert`.  Where a claim depends on the (unspecified) iteration
  order of `HashMap`, the order is an explicit parameter.
-/

namespace DracoGltf

/-- `gltf::accessor::DataType` (the component types glTF accessors use). -/
inductive DataType where
  | I8 | U8 | I16 | U16 | U32 | F32
  deriving DecidableEq, Repr

/-- `draco_decoder::AttributeDataType`. -/
inductive AttributeDataType where
  | Int8 | UInt8 | Int16 | UInt16 | Int32 | UInt32 | Float32
  deriving DecidableEq, Repr

/-- `gltf::accessor::Dimensions`. -/
inductive Dimensions where
  | Scalar | Vec2 | Vec3 | Vec4 | Mat2 | Mat3 | Mat4
  deriving DecidableEq, Repr

/-- `gltf::Semantic` (attribute semantics; the set index is a `u32`). -/
inductive Semantic where
  | Positions
  | Normals
  | Tangents
  | TexCoords (set : Nat)
  | Colors (set : Nat)
  | Joints (set : Nat)
  | Weights (set : Nat)
  deriving DecidableEq, Repr

/-- `gltf::mesh::Mode`. -/
inductive Mode where
  | Points | Lines | LineLoop | LineStrip | Triangles | TriangleStrip | TriangleFan
  deriving DecidableEq, Repr

/-- `DracoLoadError` from `src/lib.rs` lines 13-33. -/
inductive DracoLoadError where
  | NotDraco
  | BadExtension
  | BadBufferView (i : Nat)
  | BadBuffer (i : Nat)
  | NoPositionAccessor
  | NoIndicesAccessor
  | DracoDecode
  | UnknownAttributeId (id : Nat)
  | UnsupportedMode
  deriving DecidableEq, Repr

/-- Outcome of a Rust computation that can return a value, return an error,
or panic (out-of-bounds slice indexing).  Rust's declared error channel is
`Result<_, DracoLoadError>`; `panic` is the extra outcome a slice expression
like `&raw[a..b]` can produce. -/
inductive PResult (α : Type) where
  | ok (a : α)
  | err (e : DracoLoadError)
  | panic
  deriving DecidableEq, Repr

/-! ## Embedding of `src/mapping.rs` -/

/-- Rust `str::split_once('_')` on the character list of a key: splits at the
first underscore, returning the parts before and after it; `none` when no
underscore occurs. -/
def split_once : List Char → Option (List Char × List Char)
  | [] => none
  | c :: rest =>
    if c = '_' then some ([], rest)
    else
      match split_once rest with
      | some (a, b) => some (c :: a, b)
      | none => none

/-- Rust `str::parse::<u32>()`: an optional leading `'+'`, then one or more
ASCII digits, value below `2^32`; anything else fails. -/
def parse_u32 (s : List Char) : Option Nat :=
  let digits := match s with
    | '+' :: rest => rest
    | other => other
  if digits = [] then none
  else if digits.all (fun c => c.isDigit) then
    let v := digits.foldl (fun a c => a * 10 + (c.toNat - '0'.toNat)) 0
    if v < 2 ^ 32 then some v else none
  else none

/-- `dracokey_to_semantic` (`src/mapping.rs` lines 1-22): maps a Draco
extension attribute key to a glTF semantic. -/
def dracokey_to_semantic (key : String) : Option Semantic :=
  if key = "POSITION" then some .Positions
  else if key = "NORMAL" then some .Normals
  else if key = "TANGENT" then some .Tangents
  else
    match split_once key.toList with
    | none => none
    | some (kind, idx_s) =>
      match parse_u32 idx_s with
      | none => none
      | some idx =>
        if String.mk kind = "TEXCOORD" then some (.TexCoords idx)
        else if String.mk kind = "COLOR" then some (.Colors idx)
        else if String.mk kind = "JOINTS" then some (.Joints idx)
        else if String.mk kind = "WEIGHTS" then some (.Weights idx)
        else none

/-- `map_draco_dt` (`src/mapping.rs` lines 24-37): maps the `u8` Draco data
type code to the decoder's attribute data type; every code outside `1..=7`
falls through to `Float32`. -/
def map_draco_dt (dt_u8 : Nat) : AttributeDataType :=
  if dt_u8 = 1 then .Int8
  else if dt_u8 = 2 then .UInt8
  else if dt_u8 = 3 then .Int16
  else if dt_u8 = 4 then .UInt16
  else if dt_u8 = 5 then .Int32
  else if dt_u8 = 6 then .UInt32
  else if dt_u8 = 7 then .Float32
  else .Float32

/-- `comp_size_bytes` (`src/mapping.rs` lines 39-48). -/
def comp_size_bytes (ct : DataType) : Nat :=
  match ct with
  | .I8 | .U8 => 1
  | .I16 | .U16 => 2
  | .U32 | .F32 => 4

/-- `dims_count` (`src/mapping.rs` lines 50-60). -/
def dims_count (d : Dimensions) : Nat :=
  match d with
  | .Scalar => 1
  | .Vec2 => 2
  | .Vec3 => 3
  | .Vec4 => 4
  | _ => 4

/-- Worker for `chunksExact`: collect elements into the current chunk `acc`,
emitting it each time it reaches `k` elements; an incomplete final chunk is
discarded. -/
def chunksGo (k : Nat) (acc : List α) : List α → List (List α)
  | [] => []
  | x :: xs =>
    let acc' := acc ++ [x]
    if acc'.length = k then acc' :: chunksGo k [] xs
    else chunksGo k acc' xs

/-- Rust `chunks_exact(k)`: splits a list into consecutive chunks of exactly
`k` elements, discarding a shorter remainder.  (Callers in this crate always
pass `k ≥ 2`; for `k = 0` we return `[]`, a case Rust forbids.) -/
def chunksExact (k : Nat) (l : List α) : List (List α) :=
  if k = 0 then [] else chunksGo k [] l

/-- `u16::from_le_bytes([b0, b1])` as a natural number. -/
def u16_from_le (b0 b1 : Nat) : Nat := b0 + 256 * b1

/-- `u32::from_le_bytes([b0, b1, b2, b3])` as a natural number. -/
def u32_from_le (b0 b1 b2 b3 : Nat) : Nat :=
  b0 + 256 * b1 + 65536 * b2 + 16777216 * b3

/-- Exact value of an IEEE-754 binary32 bit pattern as a rational.  NaN and
infinity patterns (exponent field 255), which no conversion in this
development produces or consumes in a claim, are collapsed to 0. -/
def f32_from_bits (n : Nat) : ℚ :=
  let s : Nat := n / 2 ^ 31 % 2
  let e : Nat := n / 2 ^ 23 % 256
  let f : Nat := n % 2 ^ 23
  let sign : ℚ := if s = 1 then -1 else 1
  if e = 0 then sign * ((f : ℚ) / 2 ^ 149)
  else if e = 255 then 0
  else sign * (((2 ^ 23 + f : Nat) : ℚ) * 2 ^ e / 2 ^ 150)

/-- `f32::from_le_bytes` on a 4-byte chunk, as an exact rational. -/
def f32_from_le (c : List Nat) : ℚ :=
  f32_from_bits (u32_from_le (c.get? 0 |>.getD 0) (c.get? 1 |>.getD 0)
    (c.get? 2 |>.getD 0) (c.get? 3 |>.getD 0))

/-- `as_f32n::<N>` (`src/mapping.rs` lines 62-74): groups bytes into
`4 * N`-byte chunks and decodes each chunk as `N` little-endian floats. -/
def as_f32n (N : Nat) (bytes : List Nat) : List (List ℚ) :=
  (chunksExact (4 * N) bytes).map fun c =>
    (List.range N).map fun i => f32_from_le ((c.drop (i * 4)).take 4)

/-- `as_u16x4` (`src/mapping.rs` lines 75-87): 8-byte chunks decoded as four
little-endian `u16` values. -/
def as_u16x4 (bytes : List Nat) : List (List Nat) :=
  (chunksExact 8 bytes).map fun c =>
    [u16_from_le (c.get? 0 |>.getD 0) (c.get? 1 |>.getD 0),
     u16_from_le (c.get? 2 |>.getD 0) (c.get? 3 |>.getD 0),
     u16_from_le (c.get? 4 |>.getD 0) (c.get? 5 |>.getD 0),
     u16_from_le (c.get? 6 |>.getD 0) (c.get? 7 |>.getD 0)]

/-- `as_u8x4` (`src/mapping.rs` lines 88-93): 4-byte chunks kept as raw
bytes. -/
def as_u8x4 (bytes : List Nat) : List (List Nat) :=
  (chunksExact 4 bytes).map fun c =>
    [c.get? 0 |>.getD 0, c.get? 1 |>.getD 0, c.get? 2 |>.getD 0, c.get? 3 |>.getD 0]

/-! ## Embedding of `src/lib.rs`: data model -/

/-- `gltf::Accessor`, restricted to the fields this crate reads:
`count()`, `data_type()` and `dimensions()`. -/
structure Accessor where
  count : Nat
  data_type : DataType
  dimensions : Dimensions
  deriving DecidableEq, Repr

/-- `gltf::buffer::View`, restricted to the fields `get_buffer` reads:
`index()`, `buffer().index()`, `offset()` and `length()`. -/
structure BufferView where
  index : Nat
  buffer : Nat
  offset : Nat
  length : Nat
  deriving DecidableEq, Repr

/-- `gltf::Document`, restricted to `views()`. -/
structure Document where
  views : List BufferView
  deriving DecidableEq, Repr

/-- `DracoExt` (`src/lib.rs` lines 35-40).  The Rust field `attributes` is a
`HashMap<String, u32>`; it is modelled as an association list giving the
map's contents in one fixed iteration order. -/
structure DracoExt where
  buffer_view : Nat
  attributes : List (String × Nat)
  deriving DecidableEq, Repr

/-- `gltf::mesh::Primitive`, restricted to what this crate calls:
`mode()`, `extension_value("KHR_draco_mesh_compression")` followed by serde
deserialisation (modelled as `none` = extension absent, `some none` =
present but malformed, `some (some e)` = deserialises to `e`), the
attribute lookup `get(&Semantic)`, and `indices()`. -/
structure Primitive where
  mode : Mode
  draco_extension : Option (Option DracoExt)
  attrs : List (Semantic × Accessor)
  indices_acc : Option Accessor
  deriving DecidableEq, Repr

/-- `Primitive::get(&sem)`: the accessor bound to a semantic, if any. -/
def Primitive.getSem (p : Primitive) (sem : Semantic) : Option Accessor :=
  (p.attrs.find? (fun kv => kv.1 = sem)).map Prod.snd

/-- `AttrInfo` (`src/lib.rs` lines 49-53): one caller-supplied attribute
descriptor; `dim` is a `u32`, `data_type` a `u8` code. -/
structure AttrInfo where
  unique_id : Nat
  dim : Nat
  data_type : Nat
  deriving DecidableEq, Repr

/-- `AttrSlice` (`src/lib.rs` lines 42-47): one attribute section sliced out
of the engine's flat output buffer. -/
structure AttrSlice where
  unique_id : Nat
  bytes : List Nat
  dim : Nat
  dt : AttributeDataType
  deriving DecidableEq, Repr

/-- `draco_decoder::MeshDecodeConfig`: vertex/index counts plus the ordered
attribute descriptors registered by `cfg.add_attribute`. -/
structure MeshDecodeConfig where
  vertex_count : Nat
  index_count : Nat
  attributes : List (Nat × AttributeDataType)
  deriving DecidableEq, Repr

/-- `DecodedPrimitive` (`src/lib.rs` lines 1-11).  The four per-channel-set
`HashMap`s are modelled as association lists with replace-on-insert
semantics. -/
structure DecodedPrimitive where
  indices : List Nat := []
  positions : Option (List (List ℚ)) := none
  normals : Option (List (List ℚ)) := none
  tangents : Option (List (List ℚ)) := none
  texcoords : List (Nat × List (List ℚ)) := []
  colors : List (Nat × List (List ℚ)) := []
  joints : List (Nat × List (List Nat)) := []
  weights : List (Nat × List (List ℚ)) := []
  deriving DecidableEq, Repr

/-- `HashMap::insert`: replace the binding of `k` in place, or append it. -/
def mapInsert (k : Nat) (v : α) : List (Nat × α) → List (Nat × α)
  | [] => [(k, v)]
  | (k', v') :: rest =>
    if k' = k then (k, v) :: rest else (k', v') :: mapInsert k v rest

/-- `HashMap::get`: the value bound to `k`, if any. -/
def mapLookup (k : Nat) : List (Nat × α) → Option α
  | [] => none
  | (k', v') :: rest => if k' = k then some v' else mapLookup k rest

/-! ## Embedding of `src/lib.rs`: functions -/

/-- `get_buffer` (`src/lib.rs` lines 184-202): find the buffer view by exact
index, resolve its buffer, and take the byte range
`[offset, offset + length)`.  The Rust slice expression `&buf[start..end]`
performs no bounds check of its own: an out-of-range view panics. -/
def get_buffer (document : Document) (buffers : List (List Nat)) (index : Nat) :
    PResult (List Nat) :=
  match document.views.find? (fun v => v.index = index) with
  | none => .err (.BadBufferView index)
  | some bv =>
    match buffers[bv.buffer]? with
    | none => .err (.BadBuffer bv.buffer)
    | some buf =>
      if bv.offset + bv.length ≤ buf.length then
        .ok ((buf.drop bv.offset).take bv.length)
      else .panic

/-- `get_indices` (`src/lib.rs` lines 204-223): slice the index section off
the front of the raw buffer (`&raw[0..index_bytes]`, panicking when the
buffer is shorter) and decode it per component type; component types other
than `U16`/`U32`/`U8` return `DracoDecode`. -/
def get_indices (raw : List Nat) (index_bytes : Nat) (index_comp : DataType) :
    PResult (List Nat) :=
  if index_bytes ≤ raw.length then
    let indices_bytes := raw.take index_bytes
    match index_comp with
    | .U16 =>
      .ok ((chunksExact 2 indices_bytes).map fun b =>
        u16_from_le (b.get? 0 |>.getD 0) (b.get? 1 |>.getD 0))
    | .U32 =>
      .ok ((chunksExact 4 indices_bytes).map fun b =>
        u32_from_le (b.get? 0 |>.getD 0) (b.get? 1 |>.getD 0)
          (b.get? 2 |>.getD 0) (b.get? 3 |>.getD 0))
    | .U8 => .ok indices_bytes
    | _ => .err .DracoDecode
  else .panic

/-- The element-size match inside `prozes_out` (`src/lib.rs` lines 148-153):
codes 1-2 are 1 byte, 3-4 are 2 bytes, 5-7 are 4 bytes, and any other code
falls through to 4 bytes. -/
def attr_elem_size (data_type : Nat) : Nat :=
  if data_type = 1 ∨ data_type = 2 then 1
  else if data_type = 3 ∨ data_type = 4 then 2
  else if data_type = 5 ∨ data_type = 6 ∨ data_type = 7 then 4
  else 4

/-- The attribute-section loop of `prozes_out` (`src/lib.rs` lines 145-163):
walk the raw buffer in descriptor order, each descriptor consuming
`vertex_count * dim * elem_size` bytes via `&raw[cursor..cursor+byte_len]`
(panicking when the buffer runs out). -/
def slice_blocks (raw : List Nat) (vertex_count : Nat) :
    List AttrInfo → Nat → PResult (List AttrSlice)
  | [], _ => .ok []
  | info :: rest, cursor =>
    let byte_len := vertex_count * info.dim * attr_elem_size info.data_type
    if cursor + byte_len ≤ raw.length then
      match slice_blocks raw vertex_count rest (cursor + byte_len) with
      | .ok l =>
        .ok ({ unique_id := info.unique_id,
               bytes := (raw.drop cursor).take byte_len,
               dim := info.dim,
               dt := map_draco_dt info.data_type } :: l)
      | r => r
    else .panic

/-- Total byte length the descriptor-order walk of `slice_blocks` consumes:
the sum over descriptors of `vertex_count * dim * element_size`. -/
def layout_len (vertex_count : Nat) (infos : List AttrInfo) : Nat :=
  (infos.map fun i => vertex_count * i.dim * attr_elem_size i.data_type).sum

/-- One iteration of the reverse-map loop of `prozes_out` (`src/lib.rs`
lines 167-173): resolve the semantic of the key and fetch the primitive's
accessor; on success insert (overwriting an earlier binding of the same
id), otherwise drop the pair silently. -/
def build_step (p : Primitive) (m : List (Nat × (Semantic × Accessor)))
    (kv : String × Nat) : List (Nat × (Semantic × Accessor)) :=
  match dracokey_to_semantic kv.1 with
  | some sem =>
    match p.getSem sem with
    | some acc => mapInsert kv.2 (sem, acc) m
    | none => m
  | none => m

/-- The reverse-map construction of `prozes_out` (`src/lib.rs` lines
165-173): fold `build_step` over the extension's attributes map in the given
iteration order. -/
def build_reverse_map (attrs : List (String × Nat)) (p : Primitive) :
    List (Nat × (Semantic × Accessor)) :=
  attrs.foldl (build_step p) []

/-- Specification helper: the `(semantic, accessor)` pair one extension
entry key resolves to, if both resolution steps succeed. -/
def resolve_attr (p : Primitive) (k : String) : Option (Semantic × Accessor) :=
  match dracokey_to_semantic k with
  | some sem =>
    match p.getSem sem with
    | some acc => some (sem, acc)
    | none => none
  | none => none

/-- Specification helper: the binding a given unique id ends up with after
the reverse-map fold — the last entry (in iteration order) with that id that
resolves; entries whose key fails to resolve are no-ops. -/
def lastResolved (p : Primitive) (id : Nat) :
    List (String × Nat) → Option (Semantic × Accessor)
  | [] => none
  | kv :: rest =>
    match lastResolved p id rest with
    | some sa => some sa
    | none =>
      if kv.2 = id then
        match resolve_attr p kv.1 with
        | some sa => some sa
        | none => none
      else none

/-- The `Colors` arm of `fill_primitive` (`src/lib.rs` lines 253-272):
float32 blocks are copied as 4-float tuples; any other data type falls back
to normalised 8-bit, each channel divided by 255. -/
def convert_colors (dt : AttributeDataType) (bytes : List Nat) : List (List ℚ) :=
  match dt with
  | .Float32 => as_f32n 4 bytes
  | _ => (as_u8x4 bytes).map fun c => c.map fun b => (b : ℚ) / 255

/-- The `Joints` arm of `fill_primitive` (`src/lib.rs` lines 274-286):
`UInt16` blocks are decoded as little-endian 16-bit quadruples; any other
data type is treated as bytes widened to 16-bit. -/
def convert_joints (dt : AttributeDataType) (bytes : List Nat) : List (List Nat) :=
  match dt with
  | .UInt16 => as_u16x4 bytes
  | _ => (chunksExact 4 bytes).map fun c =>
      [c.get? 0 |>.getD 0, c.get? 1 |>.getD 0, c.get? 2 |>.getD 0, c.get? 3 |>.getD 0]

/-- The `Weights` arm of `fill_primitive` (`src/lib.rs` lines 288-321):
float32 blocks are copied as 4-float tuples; `UInt16` blocks are decoded as
little-endian 16-bit quadruples with each channel divided by 65535; any
other data type is treated as bytes with each channel divided by 255. -/
def convert_weights (dt : AttributeDataType) (bytes : List Nat) : List (List ℚ) :=
  match dt with
  | .Float32 => as_f32n 4 bytes
  | .UInt16 => (chunksExact 8 bytes).map fun c =>
      [(u16_from_le (c.get? 0 |>.getD 0) (c.get? 1 |>.getD 0) : ℚ) / 65535,
       (u16_from_le (c.get? 2 |>.getD 0) (c.get? 3 |>.getD 0) : ℚ) / 65535,
       (u16_from_le (c.get? 4 |>.getD 0) (c.get? 5 |>.getD 0) : ℚ) / 65535,
       (u16_from_le (c.get? 6 |>.getD 0) (c.get? 7 |>.getD 0) : ℚ) / 65535]
  | _ => (chunksExact 4 bytes).map fun c =>
      [((c.get? 0 |>.getD 0 : Nat) : ℚ) / 255, ((c.get? 1 |>.getD 0 : Nat) : ℚ) / 255,
       ((c.get? 2 |>.getD 0 : Nat) : ℚ) / 255, ((c.get? 3 |>.getD 0 : Nat) : ℚ) / 255]

/-- The semantic dispatch of `fill_primitive` (`src/lib.rs` lines 238-322)
for one matched block.  The release build performs no dimension check here:
the `debug_assert_eq!` at line 236 is compiled out, and each arm uses the
semantic's fixed tuple width regardless of `blk.dim` (captured separately by
`dims_consistent`). -/
def fill_one (p : DecodedPrimitive) (blk : AttrSlice) (sem : Semantic) :
    DecodedPrimitive :=
  match sem with
  | .Positions => { p with positions := some (as_f32n 3 blk.bytes) }
  | .Normals => { p with normals := some (as_f32n 3 blk.bytes) }
  | .Tangents => { p with tangents := some (as_f32n 4 blk.bytes) }
  | .TexCoords set => { p with texcoords := mapInsert set (as_f32n 2 blk.bytes) p.texcoords }
  | .Colors set => { p with colors := mapInsert set (convert_colors blk.dt blk.bytes) p.colors }
  | .Joints set => { p with joints := mapInsert set (convert_joints blk.dt blk.bytes) p.joints }
  | .Weights set => { p with weights := mapInsert set (convert_weights blk.dt blk.bytes) p.weights }

/-- The consistency condition of the `debug_assert_eq!` at `src/lib.rs`
line 236: the block's declared dimension equals the matched accessor's
dimension count. -/
def dims_consistent (blk : AttrSlice) (acc : Accessor) : Prop :=
  dims_count acc.dimensions = blk.dim

/-- `fill_primitive` (`src/lib.rs` lines 225-325): for each block in order,
resolve its `unique_id` through the reverse map (failing with
`UnknownAttributeId` when absent) and dispatch on the matched semantic. -/
def fill_primitive (p : DecodedPrimitive) :
    List AttrSlice → List (Nat × (Semantic × Accessor)) →
    Except DracoLoadError DecodedPrimitive
  | [], _ => .ok p
  | blk :: rest, m =>
    match mapLookup blk.unique_id m with
    | none => .error (.UnknownAttributeId blk.unique_id)
    | some (sem, _acc) => fill_primitive (fill_one p blk sem) rest m

/-- `prozes_out` (`src/lib.rs` lines 133-182): decode the index section,
slice the attribute sections in descriptor order, build the reverse map from
the extension's attributes, and fill a fresh `DecodedPrimitive`. -/
def prozes_out (raw : List Nat) (index_comp : DataType)
    (index_count vertex_count : Nat) (infos : List AttrInfo) (p : Primitive)
    (draco_ext : DracoExt) : PResult DecodedPrimitive :=
  let index_bytes := index_count * comp_size_bytes index_comp
  match get_indices raw index_bytes index_comp with
  | .err e => .err e
  | .panic => .panic
  | .ok indices =>
    match slice_blocks raw vertex_count infos index_bytes with
    | .err e => .err e
    | .panic => .panic
    | .ok attr_blocks =>
      let dracoid_to_sem := build_reverse_map draco_ext.attributes p
      match fill_primitive { indices := indices } attr_blocks dracoid_to_sem with
      | .error e => .err e
      | .ok out => .ok out

/-- The result tuple of `prozes_in` (`src/lib.rs` lines 83-92), with named
fields. -/
structure PreDecode where
  draco_bytes : List Nat
  cfg : MeshDecodeConfig
  index_comp : DataType
  index_count : Nat
  vertex_count : Nat
  draco_ext : DracoExt
  deriving DecidableEq, Repr

/-- `prozes_in` (`src/lib.rs` lines 78-131): validate the topology, resolve
and deserialise the extension, resolve the compressed bytes, derive the
vertex count from the POSITION accessor and the index count from the indices
accessor (widening an 8-bit index component type to 16-bit), and build the
engine descriptor in the given attribute order. -/
def prozes_in (p : Primitive) (document : Document) (buffers : List (List Nat))
    (infos : List AttrInfo) : PResult PreDecode :=
  if p.mode ≠ Mode.Triangles then .err .UnsupportedMode
  else
    match p.draco_extension with
    | none => .err .NotDraco
    | some none => .err .BadExtension
    | some (some draco_ext) =>
      match get_buffer document buffers draco_ext.buffer_view with
      | .err e => .err e
      | .panic => .panic
      | .ok draco_bytes =>
        match p.getSem .Positions with
        | none => .err .NoPositionAccessor
        | some pos_acc =>
          let vertex_count := pos_acc.count
          match p.indices_acc with
          | none => .err .NoIndicesAccessor
          | some indices_accessor =>
            let index_count := indices_accessor.count
            let index_comp :=
              if indices_accessor.data_type = DataType.U8 then DataType.U16
              else indices_accessor.data_type
            .ok { draco_bytes := draco_bytes,
                  cfg := { vertex_count := vertex_count,
                           index_count := index_count,
                           attributes := infos.map fun i => (i.dim, map_draco_dt i.data_type) },
                  index_comp := index_comp,
                  index_count := index_count,
                  vertex_count := vertex_count,
                  draco_ext := draco_ext }

/-- `decode_draco` (`src/lib.rs` lines 58-76), with the external engine call
`draco_decoder::decode_mesh` abstracted as a function from the compressed
bytes and the descriptor to an optional raw output buffer (`none` = engine
failure, mapped to `DracoDecode`). -/
def decode_draco (engine : List Nat → MeshDecodeConfig → Option (List Nat))
    (p : Primitive) (document : Document) (buffers : List (List Nat))
    (infos : List AttrInfo) : PResult DecodedPrimitive :=
  match prozes_in p document buffers infos with
  | .err e => .err e
  | .panic => .panic
  | .ok pre =>
    match engine pre.draco_bytes pre.cfg with
    | none => .err .DracoDecode
    | some raw =>
      prozes_out raw pre.index_comp pre.index_count pre.vertex_count infos p
        pre.draco_ext

/-! ## Shared helper lemmas -/

theorem mapLookup_mapInsert_self (k : Nat) (v : α) (m : List (Nat × α)) :
    mapLookup k (mapInsert k v m) = some v := by
  induction m with
  | nil => simp [mapInsert, mapLookup]
  | cons kv rest ih =>
    obtain ⟨k', v'⟩ := kv
    by_cases h : k' = k
    · simp [mapInsert, mapLookup, h]
    · simp [mapInsert, mapLookup, h, ih]

theorem mapLookup_mapInsert_ne (k k' : Nat) (v : α) (m : List (Nat × α))
    (h : k' ≠ k) : mapLookup k' (mapInsert k v m) = mapLookup k' m := by
  have hk : k ≠ k' := Ne.symm h
  induction m with
  | nil => simp [mapInsert, mapLookup, hk]
  | cons kv rest ih =>
    obtain ⟨k'', v''⟩ := kv
    by_cases h2 : k'' = k
    · subst h2
      simp [mapInsert, mapLookup, hk]
    · by_cases h3 : k'' = k'
      · simp [mapInsert, mapLookup, h2, h3, h]
      · simp [mapInsert, mapLookup, h2, h3, ih]

theorem split_once_spec :
    ∀ (l a b : List Char), split_once l = some (a, b) →
      '_' ∉ a ∧ l = a ++ '_' :: b := by
  intro l
  induction l with
  | nil => intro a b h; simp [split_once] at h
  | cons c rest ih =>
    intro a b h
    by_cases hc : c = '_'
    · simp only [split_once, if_pos hc, Option.some.injEq, Prod.mk.injEq] at h
      obtain ⟨ha, hb⟩ := h
      subst ha; subst hb; subst hc
      simp
    · simp only [split_once, if_neg hc] at h
      cases hr : split_once rest with
      | none => rw [hr] at h; simp at h
      | some ab =>
        obtain ⟨a', b'⟩ := ab
        rw [hr] at h
        simp only [Option.some.injEq, Prod.mk.injEq] at h
        obtain ⟨ha, hb⟩ := h
        obtain ⟨ihn, ihe⟩ := ih a' b' hr
        subst hb
        constructor
        · rw [← ha]
          intro hmem
          rcases List.mem_cons.mp hmem with h1 | h1
          · exact hc h1.symm
          · exact ihn h1
        · rw [← ha, ihe]; simp

theorem split_once_eq_none (l : List Char) (h : '_' ∉ l) : split_once l = none := by
  induction l with
  | nil => simp [split_once]
  | cons c rest ih =>
    have hc : c ≠ '_' := fun hh => h (by simp [hh])
    have hrest : '_' ∉ rest := fun hh => h (by simp [hh])
    simp [split_once, hc, ih hrest]

/-! ## Claim theorems -/

/-- **C7.** For every semantic-key string, the semantic mapping returns
`Positions` for exactly `"POSITION"`, `Normals` for exactly `"NORMAL"`,
`Tangents` for exactly `"TANGENT"`; otherwise it splits the key at the first
underscore into `(kind, number)` and returns `TexCoords`/`Colors`/`Joints`/
`Weights` of the parsed number for kinds `"TEXCOORD"`/`"COLOR"`/`"JOINTS"`/
`"WEIGHTS"`; for every other kind, any unparsable number, and any key
without an underscore it returns no match. -/
theorem C7_semantic_mapping :
    (dracokey_to_semantic "POSITION" = some .Positions ∧
     dracokey_to_semantic "NORMAL" = some .Normals ∧
     dracokey_to_semantic "TANGENT" = some .Tangents) ∧
    (∀ key : String, key ≠ "POSITION" → key ≠ "NORMAL" → key ≠ "TANGENT" →
      ('_' ∉ key.toList → dracokey_to_semantic key = none) ∧
      (∀ kind num, split_once key.toList = some (kind, num) →
        ('_' ∉ kind ∧ key.toList = kind ++ '_' :: num) ∧
        (parse_u32 num = none → dracokey_to_semantic key = none) ∧
        (∀ n, parse_u32 num = some n →
          (String.mk kind = "TEXCOORD" →
            dracokey_to_semantic key = some (.TexCoords n)) ∧
          (String.mk kind = "COLOR" →
            dracokey_to_semantic key = some (.Colors n)) ∧
          (String.mk kind = "JOINTS" →
            dracokey_to_semantic key = some (.Joints n)) ∧
          (String.mk kind = "WEIGHTS" →
            dracokey_to_semantic key = some (.Weights n)) ∧
          (String.mk kind ≠ "TEXCOORD" → String.mk kind ≠ "COLOR" →
            String.mk kind ≠ "JOINTS" → String.mk kind ≠ "WEIGHTS" →
            dracokey_to_semantic key = none)))) := by
  refine ⟨⟨rfl, rfl, rfl⟩, ?_⟩
  intro key h1 h2 h3
  constructor
  · intro hnou
    have hnone : split_once key.data = none := split_once_eq_none key.toList hnou
    simp [dracokey_to_semantic, h1, h2, h3, hnone]
  · intro kind num hsplit
    have hsplit' : split_once key.data = some (kind, num) := hsplit
    refine ⟨split_once_spec key.toList kind num hsplit, ?_, ?_⟩
    · intro hparse
      simp [dracokey_to_semantic, h1, h2, h3, hsplit', hparse]
    · intro n hparse
      refine ⟨?_, ?_, ?_, ?_, ?_⟩ <;> intros <;>
        simp_all [dracokey_to_semantic, h1, h2, h3, hsplit', hparse]

/-- Witness for C7 at the concrete key `"TEXCOORD_3"`. -/
theorem C7_semantic_mapping_witness :
    dracokey_to_semantic "TEXCOORD_3" = some (.TexCoords 3) :=
  ((((C7_semantic_mapping.2 "TEXCOORD_3" (by decide) (by decide)
      (by decide)).2 "TEXCOORD".toList "3".toList rfl).2.2) 3 (by decide)).1 rfl

/-- **C8.** Resolving the compressed byte range is only total under the
precondition that the view's `offset + length` does not exceed the resolved
buffer's byte length: within bounds `get_buffer` returns the slice
`[offset, offset + length)`, while an out-of-range buffer view panics (the
slice is taken without a bounds check) and is never mapped to any declared
error kind such as `BadBufferView` or `BadBuffer`. -/
theorem C8_get_buffer_partiality (document : Document)
    (buffers : List (List Nat)) (index : Nat) (bv : BufferView)
    (buf : List Nat)
    (hv : document.views.find? (fun v => v.index = index) = some bv)
    (hb : buffers[bv.buffer]? = some buf) :
    (bv.offset + bv.length ≤ buf.length →
      get_buffer document buffers index =
        .ok ((buf.drop bv.offset).take bv.length)) ∧
    (buf.length < bv.offset + bv.length →
      get_buffer document buffers index = .panic ∧
      ∀ e, get_buffer document buffers index ≠ .err e) := by
  constructor
  · intro hle
    simp [get_buffer, hv, hb, hle]
  · intro hgt
    have hn : ¬ bv.offset + bv.length ≤ buf.length := by omega
    constructor
    · simp [get_buffer, hv, hb, hn]
    · intro e
      simp [get_buffer, hv, hb, hn]

/-- Witness for C8: the view `[2, 2+5)` over a 3-byte buffer panics. -/
theorem C8_get_buffer_partiality_witness :
    get_buffer ⟨[⟨0, 0, 2, 5⟩]⟩ [[1, 2, 3]] 0 = .panic :=
  ((C8_get_buffer_partiality ⟨[⟨0, 0, 2, 5⟩]⟩ [[1, 2, 3]] 0 ⟨0, 0, 2, 5⟩
    [1, 2, 3] rfl rfl).2 (by decide)).1

/-- **C9.** Every descriptor `data_type` code outside `1..=7` is silently
mapped to `Float32` rather than rejected: the engine descriptor records it
as `Float32` and the layout walk sizes it as a 4-byte element, so an `ok`
walk over such a descriptor yields a block tagged `Float32` whose byte
length is `vertex_count * dim * 4` — never an error. -/
theorem C9_out_of_range_code_is_float32 (code : Nat) (info : AttrInfo)
    (raw : List Nat) (vc cursor : Nat) (blocks : List AttrSlice)
    (h : ¬(1 ≤ code ∧ code ≤ 7)) (hi : info.data_type = code)
    (hs : slice_blocks raw vc [info] cursor = .ok blocks) :
    map_draco_dt code = .Float32 ∧ attr_elem_size code = 4 ∧
    ∃ blk, blocks = [blk] ∧ blk.dt = .Float32 ∧
      blk.bytes.length = vc * info.dim * 4 := by
  have h1 : code ≠ 1 := by omega
  have h2 : code ≠ 2 := by omega
  have h3 : code ≠ 3 := by omega
  have h4 : code ≠ 4 := by omega
  have h5 : code ≠ 5 := by omega
  have h6 : code ≠ 6 := by omega
  have h7 : code ≠ 7 := by omega
  have hmap : map_draco_dt code = .Float32 := by
    simp [map_draco_dt, h1, h2, h3, h4, h5, h6, h7]
  have hsize : attr_elem_size code = 4 := by
    simp [attr_elem_size, h1, h2, h3, h4, h5, h6, h7]
  refine ⟨hmap, hsize, ?_⟩
  have hstep : slice_blocks raw vc [info] cursor =
      if cursor + vc * info.dim * attr_elem_size info.data_type ≤ raw.length
      then .ok [⟨info.unique_id,
        (raw.drop cursor).take (vc * info.dim * attr_elem_size info.data_type),
        info.dim, map_draco_dt info.data_type⟩]
      else .panic := rfl
  rw [hstep, hi, hsize, hmap] at hs
  by_cases hle : cursor + vc * info.dim * 4 ≤ raw.length
  · rw [if_pos hle] at hs
    refine ⟨⟨info.unique_id, (raw.drop cursor).take (vc * info.dim * 4),
      info.dim, .Float32⟩, ?_, rfl, ?_⟩
    · exact ((PResult.ok.injEq _ _).mp hs).symm
    · simp only [List.length_take, List.length_drop]
      omega
  · rw [if_neg hle] at hs
    exact absurd hs (by simp)

/-- Witness for C9 at code 9 over a 12-byte buffer. -/
theorem C9_out_of_range_code_is_float32_witness :
    map_draco_dt 9 = .Float32 ∧ attr_elem_size 9 = 4 ∧
    ∃ blk, [AttrSlice.mk 0 (List.replicate 12 0) 3 .Float32] = [blk] ∧
      blk.dt = .Float32 ∧
      blk.bytes.length = 1 * (AttrInfo.mk 0 3 9).dim * 4 := by
  have h := C9_out_of_range_code_is_float32 9 (AttrInfo.mk 0 3 9)
    (List.replicate 12 0) 1 0 [AttrSlice.mk 0 (List.replicate 12 0) 3 .Float32]
    (by decide) rfl (by decide)
  exact h

/-- **C3.** An 8-bit index accessor component type is replaced by the 16-bit
type before the engine descriptor is built, and the index decode interprets
the index section as little-endian 16-bit values widened to 32-bit: decoding
index bytes `[01, 00, 02, 00]` with `index_count = 2` yields `[1, 2]`. -/
theorem C3_u8_index_widened (p : Primitive) (document : Document)
    (buffers : List (List Nat)) (infos : List AttrInfo) (pre : PreDecode)
    (a : Accessor) (h : prozes_in p document buffers infos = .ok pre)
    (ha : p.indices_acc = some a) (h8 : a.data_type = .U8) :
    pre.index_comp = .U16 ∧
    get_indices [1, 0, 2, 0] (2 * comp_size_bytes .U16) .U16 = .ok [1, 2] := by
  refine ⟨?_, by decide⟩
  unfold prozes_in at h
  split at h
  · exact absurd h (by simp)
  · split at h
    · exact absurd h (by simp)
    · exact absurd h (by simp)
    · split at h
      · exact absurd h (by simp)
      · exact absurd h (by simp)
      · split at h
        · exact absurd h (by simp)
        · split at h
          · exact absurd h (by simp)
          · rename_i ia hia
            rw [ha] at hia
            injection hia with hia'
            have hpre := (PResult.ok.injEq _ _).mp h
            rw [← hpre]
            simp [← hia', h8]

/-- Witness for C3 on a concrete primitive with a `U8` indices accessor. -/
theorem C3_u8_index_widened_witness :
    (PreDecode.mk [] ⟨3, 3, []⟩ .U16 3 3 ⟨0, []⟩).index_comp = .U16 ∧
    get_indices [1, 0, 2, 0] (2 * comp_size_bytes .U16) .U16 = .ok [1, 2] :=
  C3_u8_index_widened
    ⟨.Triangles, some (some ⟨0, []⟩), [(.Positions, ⟨3, .F32, .Vec3⟩)],
      some ⟨3, .U8, .Scalar⟩⟩
    ⟨[⟨0, 0, 0, 0⟩]⟩ [[]] [] (PreDecode.mk [] ⟨3, 3, []⟩ .U16 3 3 ⟨0, []⟩)
    ⟨3, .U8, .Scalar⟩ (by decide) rfl rfl

/-- **C5.** Every decoded attribute block whose `unique_id` is absent from
the reverse map makes the decode fail with `UnknownAttributeId`: whenever
some block's id has no entry, `fill_primitive` returns
`UnknownAttributeId id` for an absent id of one of its blocks; in
particular a single block with `unique_id = 5` absent from the map fails
with `UnknownAttributeId 5`. -/
theorem C5_unknown_attribute_id (p : DecodedPrimitive)
    (blocks : List AttrSlice) (m : List (Nat × (Semantic × Accessor)))
    (h : ∃ blk ∈ blocks, mapLookup blk.unique_id m = none) :
    (∃ id, fill_primitive p blocks m = .error (.UnknownAttributeId id) ∧
      ∃ blk ∈ blocks, blk.unique_id = id ∧ mapLookup id m = none) ∧
    fill_primitive {} [⟨5, [], 0, .Float32⟩] [] =
      .error (.UnknownAttributeId 5) := by
  refine ⟨?_, rfl⟩
  induction blocks generalizing p with
  | nil => simp at h
  | cons blk rest ih =>
    cases hl : mapLookup blk.unique_id m with
    | none =>
      refine ⟨blk.unique_id, ?_, blk, by simp, rfl, hl⟩
      simp [fill_primitive, hl]
    | some sa =>
      obtain ⟨sem, acc⟩ := sa
      have hrest : ∃ b ∈ rest, mapLookup b.unique_id m = none := by
        obtain ⟨b, hb, hbl⟩ := h
        rcases List.mem_cons.mp hb with rfl | hb'
        · rw [hl] at hbl; exact absurd hbl (by simp)
        · exact ⟨b, hb', hbl⟩
      obtain ⟨id, hfill, b, hb, hbid, hbl⟩ := ih (fill_one p blk sem) hrest
      refine ⟨id, ?_, b, by simp [hb], hbid, hbl⟩
      simp [fill_primitive, hl, hfill]

/-- Witness for C5: one block with `unique_id = 5` against a map holding
only id 1. -/
theorem C5_unknown_attribute_id_witness :
    ∃ id, fill_primitive {} [⟨5, [0], 2, .Float32⟩]
        [(1, (.Positions, ⟨1, .F32, .Vec3⟩))] =
      .error (.UnknownAttributeId id) ∧
      ∃ blk ∈ [AttrSlice.mk 5 [0] 2 .Float32], blk.unique_id = id ∧
        mapLookup id [(1, (Semantic.Positions, Accessor.mk 1 .F32 .Vec3))] =
          none :=
  (C5_unknown_attribute_id {} [⟨5, [0], 2, .Float32⟩]
    [(1, (.Positions, ⟨1, .F32, .Vec3⟩))]
    ⟨⟨5, [0], 2, .Float32⟩, by simp, rfl⟩).1

/-- **C4 counterexample.** A block whose declared dimension (2) differs from
the matched accessor's dimension (`Vec3`, i.e. 3) is NOT rejected:
`fill_primitive` succeeds on it, so the claimed consistency check does not
exist in the converter (the source's `debug_assert_eq!` is compiled out of
release builds and in any case aborts rather than returning an error). -/
theorem C4_dimension_mismatch_counterexample :
    ¬ dims_consistent ⟨1, [], 2, .Float32⟩ ⟨1, .F32, .Vec3⟩ ∧
    fill_primitive {} [⟨1, [], 2, .Float32⟩]
      [(1, (.Positions, ⟨1, .F32, .Vec3⟩))] =
      .ok { positions := some [] } := by
  constructor
  · intro hc
    simp [dims_consistent, dims_count] at hc
  · rfl

/-- **C4 (amended).** The converter performs no dimension consistency check:
whenever every block's `unique_id` resolves through the reverse map,
`fill_primitive` succeeds, regardless of whether any block's declared
dimension matches its accessor's dimension. -/
theorem C4_no_dimension_check (p : DecodedPrimitive)
    (blocks : List AttrSlice) (m : List (Nat × (Semantic × Accessor)))
    (h : ∀ blk ∈ blocks, mapLookup blk.unique_id m ≠ none) :
    ∃ out, fill_primitive p blocks m = .ok out := by
  induction blocks generalizing p with
  | nil => exact ⟨p, rfl⟩
  | cons blk rest ih =>
    cases hl : mapLookup blk.unique_id m with
    | none => exact absurd hl (h blk (by simp))
    | some sa =>
      obtain ⟨sem, acc⟩ := sa
      obtain ⟨out, hout⟩ := ih (fill_one p blk sem)
        (fun b hb => h b (by simp [hb]))
      exact ⟨out, by simp [fill_primitive, hl, hout]⟩

/-- Witness for the amended C4: a dimension-mismatched block (declared
dimension 4 against a `Vec3` normals accessor) still converts successfully. -/
theorem C4_no_dimension_check_witness :
    ∃ out, fill_primitive {} [⟨2, [], 4, .Float32⟩]
      [(2, (.Normals, ⟨1, .F32, .Vec3⟩))] = .ok out :=
  C4_no_dimension_check {} [⟨2, [], 4, .Float32⟩]
    [(2, (.Normals, ⟨1, .F32, .Vec3⟩))]
    (by intro blk hb; simp at hb; subst hb; simp [mapLookup])

/-- **C6.** The `Weights` conversion: a float32 block is copied directly as
little-endian 4-float tuples (the same `as_f32n` decode used for the other
float attributes); a 16-bit block has each little-endian 16-bit channel
divided by 65535 (the channels being exactly the `as_u16x4` decode); any
other data type has each byte channel divided by 255 (the channels being the
`as_u8x4` decode).  In particular 16-bit bytes encoding 65535 in all four
channels convert to `[1, 1, 1, 1]` and all-zero bytes convert to
`[0, 0, 0, 0]`. -/
theorem C6_weights_conversion :
    (∀ bytes, convert_weights .Float32 bytes = as_f32n 4 bytes) ∧
    (∀ bytes, convert_weights .UInt16 bytes =
      (as_u16x4 bytes).map fun c => c.map fun v => (v : ℚ) / 65535) ∧
    (∀ dt, dt ≠ AttributeDataType.Float32 → dt ≠ AttributeDataType.UInt16 →
      ∀ bytes, convert_weights dt bytes =
        (as_u8x4 bytes).map fun c => c.map fun b => (b : ℚ) / 255) ∧
    convert_weights .UInt16 [255, 255, 255, 255, 255, 255, 255, 255] =
      [[1, 1, 1, 1]] ∧
    convert_weights .UInt16 [0, 0, 0, 0, 0, 0, 0, 0] = [[0, 0, 0, 0]] := by
  refine ⟨fun bytes => rfl, ?_, ?_, ?_, ?_⟩
  · intro bytes
    simp [convert_weights, as_u16x4, List.map_map, Function.comp]
  · intro dt h1 h2 bytes
    cases dt <;> simp_all [convert_weights, as_u8x4, List.map_map, Function.comp]
  · norm_num [convert_weights, chunksExact, chunksGo, u16_from_le]
  · norm_num [convert_weights, chunksExact, chunksGo, u16_from_le]

/-- Witness for C6 on the 8-bit fallback path. -/
theorem C6_weights_conversion_witness :
    convert_weights .UInt8 [255, 0, 0, 255] = [[1, 0, 0, 1]] := by
  have h := C6_weights_conversion.2.2.1 .UInt8 (by decide) (by decide)
    [255, 0, 0, 255]
  rw [h]
  norm_num [as_u8x4, chunksExact, chunksGo]

theorem slice_blocks_cons (raw : List Nat) (vc : Nat) (info : AttrInfo)
    (rest : List AttrInfo) (cursor : Nat) :
    slice_blocks raw vc (info :: rest) cursor =
      (if cursor + vc * info.dim * attr_elem_size info.data_type ≤ raw.length
       then
         match slice_blocks raw vc rest
             (cursor + vc * info.dim * attr_elem_size info.data_type) with
         | .ok l => .ok (AttrSlice.mk info.unique_id
             ((raw.drop cursor).take
               (vc * info.dim * attr_elem_size info.data_type))
             info.dim (map_draco_dt info.data_type) :: l)
         | other => other
       else .panic) := rfl

theorem slice_blocks_overrun (raw : List Nat) (vc : Nat) :
    ∀ (infos : List AttrInfo) (cursor : Nat), infos ≠ [] →
      raw.length < cursor + layout_len vc infos →
      slice_blocks raw vc infos cursor = .panic := by
  intro infos
  induction infos with
  | nil => intro cursor h; exact absurd rfl h
  | cons info rest ih =>
    intro cursor _ hlen
    by_cases hle : cursor + vc * info.dim * attr_elem_size info.data_type ≤
      raw.length
    · cases hrest : rest with
      | nil =>
        subst hrest
        simp only [layout_len, List.map_cons, List.map_nil, List.sum_cons,
          List.sum_nil] at hlen
        omega
      | cons r rs =>
        subst hrest
        have hrec := ih (cursor + vc * info.dim * attr_elem_size info.data_type)
          (by simp)
          (by simp only [layout_len, List.map_cons, List.sum_cons] at hlen ⊢; omega)
        rw [slice_blocks_cons, if_pos hle, hrec]
    · simp [slice_blocks_cons, hle]

/-- **C1 counterexample.** An empty raw buffer with `index_count = 1` and
16-bit indices is shorter than the index section, yet the decode step does
not fail with `DracoDecode`: the out-of-bounds slice `&raw[0..index_bytes]`
panics instead. -/
theorem C1_short_buffer_counterexample :
    prozes_out [] .U16 1 0 [] ⟨.Triangles, none, [], none⟩ ⟨0, []⟩ = .panic ∧
    (PResult.panic : PResult DecodedPrimitive) ≠ .err .DracoDecode :=
  ⟨rfl, by simp⟩

/-- **C1 (amended).** A raw decoded buffer shorter than the index section
plus all attribute sections never yields a silently truncated result: the
decode step never returns `ok`.  For the index component types the decode
supports (`U8`/`U16`/`U32`) the failure is a panic from the unchecked slice,
not the `DracoDecode` error the claim names (`DracoDecode` arises here only
for an unsupported index component type). -/
theorem C1_short_buffer_never_truncates (raw : List Nat)
    (index_comp : DataType) (index_count vertex_count : Nat)
    (infos : List AttrInfo) (p : Primitive) (ext : DracoExt)
    (h : raw.length < index_count * comp_size_bytes index_comp +
      layout_len vertex_count infos) :
    (∀ out, prozes_out raw index_comp index_count vertex_count infos p ext ≠
      .ok out) ∧
    ((index_comp = .U8 ∨ index_comp = .U16 ∨ index_comp = .U32) →
      prozes_out raw index_comp index_count vertex_count infos p ext =
        .panic) := by
  by_cases hib : index_count * comp_size_bytes index_comp ≤ raw.length
  · have hme : infos ≠ [] := by
      intro he
      subst he
      simp [layout_len] at h
      omega
    have hslice : slice_blocks raw vertex_count infos
        (index_count * comp_size_bytes index_comp) = .panic :=
      slice_blocks_overrun raw vertex_count infos _ hme (by omega)
    cases index_comp with
    | U8 =>
      have hgi : get_indices raw (index_count * comp_size_bytes .U8) .U8 =
          .ok (raw.take (index_count * comp_size_bytes .U8)) := by
        simp [get_indices, hib]
      constructor
      · intro out
        simp [prozes_out, hgi, hslice]
      · intro hd
        simp [prozes_out, hgi, hslice]
    | U16 =>
      have hgi : get_indices raw (index_count * comp_size_bytes .U16) .U16 =
          .ok ((chunksExact 2 (raw.take (index_count * comp_size_bytes .U16))).map
            fun b => u16_from_le (b.get? 0 |>.getD 0) (b.get? 1 |>.getD 0)) := by
        simp [get_indices, hib]
      constructor
      · intro out
        simp [prozes_out, hgi, hslice]
      · intro hd
        simp [prozes_out, hgi, hslice]
    | U32 =>
      have hgi : get_indices raw (index_count * comp_size_bytes .U32) .U32 =
          .ok ((chunksExact 4 (raw.take (index_count * comp_size_bytes .U32))).map
            fun b => u32_from_le (b.get? 0 |>.getD 0) (b.get? 1 |>.getD 0)
              (b.get? 2 |>.getD 0) (b.get? 3 |>.getD 0)) := by
        simp [get_indices, hib]
      constructor
      · intro out
        simp [prozes_out, hgi, hslice]
      · intro hd
        simp [prozes_out, hgi, hslice]
    | I8 =>
      have hgi : get_indices raw (index_count * comp_size_bytes .I8) .I8 =
          .err .DracoDecode := by
        simp [get_indices, hib]
      refine ⟨fun out => by simp [prozes_out, hgi], fun hd => by rcases hd with hd | hd | hd <;> cases hd⟩
    | I16 =>
      have hgi : get_indices raw (index_count * comp_size_bytes .I16) .I16 =
          .err .DracoDecode := by
        simp [get_indices, hib]
      refine ⟨fun out => by simp [prozes_out, hgi], fun hd => by rcases hd with hd | hd | hd <;> cases hd⟩
    | F32 =>
      have hgi : get_indices raw (index_count * comp_size_bytes .F32) .F32 =
          .err .DracoDecode := by
        simp [get_indices, hib]
      refine ⟨fun out => by simp [prozes_out, hgi], fun hd => by rcases hd with hd | hd | hd <;> cases hd⟩
  · have hgi : get_indices raw (index_count * comp_size_bytes index_comp)
        index_comp = .panic := by
      simp [get_indices, hib]
    constructor
    · intro out
      simp [prozes_out, hgi]
    · intro hd
      simp [prozes_out, hgi]

/-- Witness for the amended C1: a 1-byte raw buffer against a 2-byte index
section. -/
theorem C1_short_buffer_never_truncates_witness :
    prozes_out [7] .U16 1 0 [] ⟨.Triangles, none, [], none⟩ ⟨0, []⟩ =
      .panic :=
  (C1_short_buffer_never_truncates [7] .U16 1 0 []
    ⟨.Triangles, none, [], none⟩ ⟨0, []⟩ (by decide)).2 (Or.inr (Or.inl rfl))

theorem fill_one_positions (p : DecodedPrimitive) (blk : AttrSlice)
    (sem : Semantic) (h : sem ≠ .Positions) :
    (fill_one p blk sem).positions = p.positions := by
  cases sem <;> simp_all [fill_one]

theorem fill_one_normals (p : DecodedPrimitive) (blk : AttrSlice)
    (sem : Semantic) (h : sem ≠ .Normals) :
    (fill_one p blk sem).normals = p.normals := by
  cases sem <;> simp_all [fill_one]

theorem fill_one_tangents (p : DecodedPrimitive) (blk : AttrSlice)
    (sem : Semantic) (h : sem ≠ .Tangents) :
    (fill_one p blk sem).tangents = p.tangents := by
  cases sem <;> simp_all [fill_one]

theorem fill_one_texcoords (p : DecodedPrimitive) (blk : AttrSlice)
    (sem : Semantic) (set : Nat) (h : sem ≠ .TexCoords set) :
    mapLookup set (fill_one p blk sem).texcoords =
      mapLookup set p.texcoords := by
  cases sem with
  | TexCoords s =>
    have hs : set ≠ s := fun hh => h (by rw [hh])
    simp [fill_one, mapLookup_mapInsert_ne s set _ _ hs]
  | _ => simp [fill_one]

theorem fill_one_colors (p : DecodedPrimitive) (blk : AttrSlice)
    (sem : Semantic) (set : Nat) (h : sem ≠ .Colors set) :
    mapLookup set (fill_one p blk sem).colors = mapLookup set p.colors := by
  cases sem with
  | Colors s =>
    have hs : set ≠ s := fun hh => h (by rw [hh])
    simp [fill_one, mapLookup_mapInsert_ne s set _ _ hs]
  | _ => simp [fill_one]

theorem fill_one_joints (p : DecodedPrimitive) (blk : AttrSlice)
    (sem : Semantic) (set : Nat) (h : sem ≠ .Joints set) :
    mapLookup set (fill_one p blk sem).joints = mapLookup set p.joints := by
  cases sem with
  | Joints s =>
    have hs : set ≠ s := fun hh => h (by rw [hh])
    simp [fill_one, mapLookup_mapInsert_ne s set _ _ hs]
  | _ => simp [fill_one]

theorem fill_one_weights (p : DecodedPrimitive) (blk : AttrSlice)
    (sem : Semantic) (set : Nat) (h : sem ≠ .Weights set) :
    mapLookup set (fill_one p blk sem).weights = mapLookup set p.weights := by
  cases sem with
  | Weights s =>
    have hs : set ≠ s := fun hh => h (by rw [hh])
    simp [fill_one, mapLookup_mapInsert_ne s set _ _ hs]
  | _ => simp [fill_one]

/-- Inversion for the success case of `fill_primitive` on a cons cell. -/
theorem fill_primitive_cons_ok (p : DecodedPrimitive) (blk : AttrSlice)
    (rest : List AttrSlice) (m : List (Nat × (Semantic × Accessor)))
    (out : DecodedPrimitive)
    (h : fill_primitive p (blk :: rest) m = .ok out) :
    ∃ sem acc, mapLookup blk.unique_id m = some (sem, acc) ∧
      fill_primitive (fill_one p blk sem) rest m = .ok out := by
  cases hl : mapLookup blk.unique_id m with
  | none => rw [fill_primitive, hl] at h; cases h
  | some sa =>
    obtain ⟨sem, acc⟩ := sa
    rw [fill_primitive, hl] at h
    exact ⟨sem, acc, rfl, h⟩

/-- `fill_primitive` leaves every `DecodedPrimitive` component untouched
whose semantic none of its blocks resolves to. -/
theorem fill_primitive_frame :
    ∀ (blocks : List AttrSlice) (p : DecodedPrimitive)
      (m : List (Nat × (Semantic × Accessor))) (out : DecodedPrimitive),
      fill_primitive p blocks m = .ok out →
      ∀ sem : Semantic,
        (∀ blk ∈ blocks, ∀ sa, mapLookup blk.unique_id m = some sa →
          sa.1 ≠ sem) →
        (sem = .Positions → out.positions = p.positions) ∧
        (sem = .Normals → out.normals = p.normals) ∧
        (sem = .Tangents → out.tangents = p.tangents) ∧
        (∀ set, sem = .TexCoords set →
          mapLookup set out.texcoords = mapLookup set p.texcoords) ∧
        (∀ set, sem = .Colors set →
          mapLookup set out.colors = mapLookup set p.colors) ∧
        (∀ set, sem = .Joints set →
          mapLookup set out.joints = mapLookup set p.joints) ∧
        (∀ set, sem = .Weights set →
          mapLookup set out.weights = mapLookup set p.weights) := by
  intro blocks
  induction blocks with
  | nil =>
    intro p m out h sem _
    rw [fill_primitive] at h
    injection h with h
    subst h
    exact ⟨fun _ => rfl, fun _ => rfl, fun _ => rfl, fun _ _ => rfl,
      fun _ _ => rfl, fun _ _ => rfl, fun _ _ => rfl⟩
  | cons blk rest ih =>
    intro p m out h sem hno
    obtain ⟨bsem, bacc, hl, h'⟩ := fill_primitive_cons_ok p blk rest m out h
    have hbs : bsem ≠ sem := hno blk (by simp) (bsem, bacc) hl
    have hrest := ih (fill_one p blk bsem) m out h' sem
      (fun b hb sa hsa => hno b (by simp [hb]) sa hsa)
    refine ⟨?_, ?_, ?_, ?_, ?_, ?_, ?_⟩
    · intro hsem
      rw [hrest.1 hsem, fill_one_positions p blk bsem (hsem ▸ hbs)]
    · intro hsem
      rw [hrest.2.1 hsem, fill_one_normals p blk bsem (hsem ▸ hbs)]
    · intro hsem
      rw [hrest.2.2.1 hsem, fill_one_tangents p blk bsem (hsem ▸ hbs)]
    · intro set hsem
      rw [hrest.2.2.2.1 set hsem, fill_one_texcoords p blk bsem set (hsem ▸ hbs)]
    · intro set hsem
      rw [hrest.2.2.2.2.1 set hsem, fill_one_colors p blk bsem set (hsem ▸ hbs)]
    · intro set hsem
      rw [hrest.2.2.2.2.2.1 set hsem, fill_one_joints p blk bsem set (hsem ▸ hbs)]
    · intro set hsem
      rw [hrest.2.2.2.2.2.2 set hsem, fill_one_weights p blk bsem set (hsem ▸ hbs)]

theorem slice_blocks_ids (raw : List Nat) (vc : Nat) :
    ∀ (infos : List AttrInfo) (cursor : Nat) (blocks : List AttrSlice),
      slice_blocks raw vc infos cursor = .ok blocks →
      blocks.map AttrSlice.unique_id = infos.map AttrInfo.unique_id := by
  intro infos
  induction infos with
  | nil =>
    intro cursor blocks h
    rw [slice_blocks] at h
    injection h with h
    subst h
    rfl
  | cons info rest ih =>
    intro cursor blocks h
    rw [slice_blocks_cons] at h
    by_cases hle : cursor + vc * info.dim * attr_elem_size info.data_type ≤
      raw.length
    · rw [if_pos hle] at h
      cases hr : slice_blocks raw vc rest
          (cursor + vc * info.dim * attr_elem_size info.data_type) with
      | ok l =>
        rw [hr] at h
        injection h with h
        subst h
        simp [ih _ l hr]
      | err e => rw [hr] at h; cases h
      | panic => rw [hr] at h; cases h
    · rw [if_neg hle] at h; cases h

/-- **C10.** For every successful decode, each `DecodedPrimitive` field
whose semantic is not carried by any decoded attribute block (none of the
walked descriptors resolves to it through the reverse map) keeps its default
value: `positions`/`normals`/`tangents` stay `none` and the
texcoords/colors/joints/weights maps stay without that channel entry.  In
particular `decode_draco` can succeed with `positions = none` even though a
POSITION accessor was present (it is required for the vertex count). -/
theorem C10_untouched_fields_keep_defaults (raw : List Nat)
    (index_comp : DataType) (index_count vertex_count : Nat)
    (infos : List AttrInfo) (p : Primitive) (ext : DracoExt)
    (out : DecodedPrimitive)
    (h : prozes_out raw index_comp index_count vertex_count infos p ext =
      .ok out) :
    (∀ sem : Semantic,
      (∀ info ∈ infos, ∀ sa,
        mapLookup info.unique_id (build_reverse_map ext.attributes p) =
          some sa → sa.1 ≠ sem) →
      (sem = .Positions → out.positions = none) ∧
      (sem = .Normals → out.normals = none) ∧
      (sem = .Tangents → out.tangents = none) ∧
      (∀ set, sem = .TexCoords set → mapLookup set out.texcoords = none) ∧
      (∀ set, sem = .Colors set → mapLookup set out.colors = none) ∧
      (∀ set, sem = .Joints set → mapLookup set out.joints = none) ∧
      (∀ set, sem = .Weights set → mapLookup set out.weights = none)) ∧
    (∃ d, decode_draco (fun _ _ => some [0, 0, 0, 0, 0, 0, 0, 0])
        ⟨.Triangles, some (some ⟨0, [("TEXCOORD_0", 1)]⟩),
         [(.Positions, ⟨1, .F32, .Vec3⟩), (.TexCoords 0, ⟨1, .F32, .Vec2⟩)],
         some ⟨0, .U16, .Scalar⟩⟩
        ⟨[⟨0, 0, 0, 0⟩]⟩ [[]] [⟨1, 2, 7⟩] = .ok d ∧
      d.positions = none ∧
      Primitive.getSem ⟨.Triangles, some (some ⟨0, [("TEXCOORD_0", 1)]⟩),
         [(.Positions, ⟨1, .F32, .Vec3⟩), (.TexCoords 0, ⟨1, .F32, .Vec2⟩)],
         some ⟨0, .U16, .Scalar⟩⟩ .Positions ≠ none) := by
  constructor
  · intro sem hno
    simp only [prozes_out] at h
    cases hgi : get_indices raw (index_count * comp_size_bytes index_comp)
        index_comp with
    | err e => simp [hgi] at h
    | panic => simp [hgi] at h
    | ok idx =>
      simp only [hgi] at h
      cases hsl : slice_blocks raw vertex_count infos
          (index_count * comp_size_bytes index_comp) with
      | err e => simp [hsl] at h
      | panic => simp [hsl] at h
      | ok blocks =>
        simp only [hsl] at h
        cases hf : fill_primitive { indices := idx } blocks
            (build_reverse_map ext.attributes p) with
        | error e => simp [hf] at h
        | ok o =>
          simp only [hf, PResult.ok.injEq] at h
          subst h
          have hids := slice_blocks_ids raw vertex_count infos _ blocks hsl
          have hcond : ∀ blk ∈ blocks, ∀ sa,
              mapLookup blk.unique_id (build_reverse_map ext.attributes p) =
                some sa → sa.1 ≠ sem := by
            intro blk hblk sa hsa
            have hmem : blk.unique_id ∈ infos.map AttrInfo.unique_id := by
              rw [← hids]
              exact List.mem_map_of_mem _ hblk
            obtain ⟨info, hinfo, hid⟩ := List.mem_map.mp hmem
            exact hno info hinfo sa (hid ▸ hsa)
          have hframe := fill_primitive_frame blocks { indices := idx }
            (build_reverse_map ext.attributes p) o hf sem hcond
          exact ⟨fun hs => hframe.1 hs,
            fun hs => hframe.2.1 hs,
            fun hs => hframe.2.2.1 hs,
            fun set hs => hframe.2.2.2.1 set hs,
            fun set hs => hframe.2.2.2.2.1 set hs,
            fun set hs => hframe.2.2.2.2.2.1 set hs,
            fun set hs => hframe.2.2.2.2.2.2 set hs⟩
  · exact ⟨_, rfl, rfl, by decide⟩

/-- Witness for C10 on a concrete one-attribute texcoord-only decode. -/
theorem C10_untouched_fields_keep_defaults_witness :
    (PResult.ok (DecodedPrimitive.mk []
      none none none [(0, as_f32n 2 [0, 0, 0, 0, 0, 0, 0, 0])] [] [] []) :
        PResult DecodedPrimitive) =
      .ok (DecodedPrimitive.mk []
        none none none [(0, as_f32n 2 [0, 0, 0, 0, 0, 0, 0, 0])] [] [] []) ∧
    (DecodedPrimitive.mk []
      none none none [(0, as_f32n 2 [0, 0, 0, 0, 0, 0, 0, 0])] [] [] []
      : DecodedPrimitive).positions = none := by
  have h := (C10_untouched_fields_keep_defaults [0, 0, 0, 0, 0, 0, 0, 0]
    .U16 0 1 [⟨1, 2, 7⟩]
    ⟨.Triangles, some (some ⟨0, [("TEXCOORD_0", 1)]⟩),
     [(.Positions, ⟨1, .F32, .Vec3⟩), (.TexCoords 0, ⟨1, .F32, .Vec2⟩)],
     some ⟨0, .U16, .Scalar⟩⟩
    ⟨0, [("TEXCOORD_0", 1)]⟩
    (DecodedPrimitive.mk []
      none none none [(0, as_f32n 2 [0, 0, 0, 0, 0, 0, 0, 0])] [] [] []) rfl).1
    Semantic.Positions (by decide)
  exact ⟨rfl, h.1 rfl⟩

theorem build_step_resolve (p : Primitive)
    (m : List (Nat × (Semantic × Accessor))) (kv : String × Nat) :
    build_step p m kv =
      match resolve_attr p kv.1 with
      | some sa => mapInsert kv.2 sa m
      | none => m := by
  unfold build_step resolve_attr
  cases dracokey_to_semantic kv.1 with
  | none => rfl
  | some sem =>
    cases hg : p.getSem sem with
    | none => simp [hg]
    | some acc => simp [hg]

theorem mapLookup_build_foldl (p : Primitive) (id : Nat) :
    ∀ (attrs : List (String × Nat)) (m : List (Nat × (Semantic × Accessor))),
      mapLookup id (attrs.foldl (build_step p) m) =
        match lastResolved p id attrs with
        | some sa => some sa
        | none => mapLookup id m := by
  intro attrs
  induction attrs with
  | nil => intro m; rfl
  | cons kv rest ih =>
    intro m
    rw [List.foldl_cons, ih]
    cases hrest : lastResolved p id rest with
    | some sa => simp [lastResolved, hrest]
    | none =>
      simp only [lastResolved, hrest]
      rw [build_step_resolve]
      by_cases hid : kv.2 = id
      · subst hid
        cases hres : resolve_attr p kv.1 with
        | some sa =>
          simp only [hres, if_pos rfl]
          exact mapLookup_mapInsert_self kv.2 sa m
        | none => simp [hres]
      · cases hres : resolve_attr p kv.1 with
        | some sa =>
          simp only [hres, if_neg hid]
          exact mapLookup_mapInsert_ne kv.2 id sa m (fun hh => hid hh.symm)
        | none => simp [hres, hid]

theorem lastResolved_none_of_not_mem (p : Primitive) (id : Nat) :
    ∀ attrs : List (String × Nat), id ∉ attrs.map Prod.snd →
      lastResolved p id attrs = none := by
  intro attrs
  induction attrs with
  | nil => intro _; rfl
  | cons kv rest ih =>
    intro h
    have hkv : kv.2 ≠ id := by
      intro hh
      exact h (by simp [hh])
    have hrest : id ∉ rest.map Prod.snd := by
      intro hh
      exact h (by simp [hh])
    simp [lastResolved, ih hrest, hkv]

theorem lastResolved_eq_find (p : Primitive) (id : Nat) :
    ∀ attrs : List (String × Nat), (attrs.map Prod.snd).Nodup →
      lastResolved p id attrs =
        match attrs.find? (fun kv => kv.2 == id) with
        | some kv => resolve_attr p kv.1
        | none => none := by
  intro attrs
  induction attrs with
  | nil => intro _; rfl
  | cons kv rest ih =>
    intro hnd
    have hnd' : (rest.map Prod.snd).Nodup := (List.nodup_cons.mp (by simpa using hnd)).2
    have hnotmem : kv.2 ∉ rest.map Prod.snd :=
      (List.nodup_cons.mp (by simpa using hnd)).1
    by_cases hid : kv.2 = id
    · have hrest : lastResolved p id rest = none :=
        lastResolved_none_of_not_mem p id rest (hid ▸ hnotmem)
      simp only [lastResolved, hrest, if_pos hid, List.find?_cons,
        show (kv.2 == id) = true from beq_iff_eq.mpr hid, cond_true]
      cases resolve_attr p kv.1 <;> rfl
    · simp only [lastResolved, List.find?_cons,
        show (kv.2 == id) = false from beq_eq_false_iff_ne.mpr hid, cond_false]
      rw [← ih hnd']
      cases lastResolved p id rest <;> simp [hid]

theorem find?_eq_head?_filter (f : α → Bool) :
    ∀ l : List α, l.find? f = (l.filter f).head? := by
  intro l
  induction l with
  | nil => rfl
  | cons x xs ih =>
    cases h : f x with
    | true =>
      rw [List.find?_cons_of_pos _ h, List.filter_cons_of_pos h]
      rfl
    | false =>
      rw [List.find?_cons_of_neg _ (by simp [h]), List.filter_cons_of_neg
        (by simp [h]), ih]

theorem filter_id_length_le_one (id : Nat) :
    ∀ attrs : List (String × Nat), (attrs.map Prod.snd).Nodup →
      (attrs.filter (fun kv => kv.2 == id)).length ≤ 1 := by
  intro attrs
  induction attrs with
  | nil => intro _; simp
  | cons kv rest ih =>
    intro hnd
    have hnd' : (rest.map Prod.snd).Nodup := (List.nodup_cons.mp (by simpa using hnd)).2
    have hnotmem : kv.2 ∉ rest.map Prod.snd :=
      (List.nodup_cons.mp (by simpa using hnd)).1
    by_cases hid : kv.2 = id
    · have hnil : rest.filter (fun kv => kv.2 == id) = [] := by
        rw [List.filter_eq_nil_iff]
        intro b hb
        intro hbid
        exact hnotmem (hid ▸ (beq_iff_eq.mp hbid) ▸ List.mem_map_of_mem Prod.snd hb)
      simp [List.filter_cons, hid, hnil]
    · simp only [List.filter_cons,
        show (kv.2 == id) = false from beq_eq_false_iff_ne.mpr hid, cond_false]
      exact ih hnd'

theorem perm_eq_of_length_le_one {l₁ l₂ : List α} (h : l₁.Perm l₂)
    (hl : l₁.length ≤ 1) : l₁ = l₂ := by
  cases l₁ with
  | nil =>
    have hlen := h.length_eq
    simp only [List.length_nil] at hlen
    exact (List.length_eq_zero.mp hlen.symm).symm
  | cons a rest =>
    cases rest with
    | nil =>
      have hlen := h.length_eq
      cases l₂ with
      | nil => simp at hlen
      | cons b bs =>
        cases bs with
        | nil =>
          have hab : a = b := by
            have hmem : a ∈ [b] := h.subset (by simp)
            simpa using hmem
          rw [hab]
        | cons c cs => simp at hlen
    | cons b rs => simp at hl

theorem fill_primitive_congr :
    ∀ (blocks : List AttrSlice) (p : DecodedPrimitive)
      (m₁ m₂ : List (Nat × (Semantic × Accessor))),
      (∀ id, mapLookup id m₁ = mapLookup id m₂) →
      fill_primitive p blocks m₁ = fill_primitive p blocks m₂ := by
  intro blocks
  induction blocks with
  | nil => intro p m₁ m₂ _; rfl
  | cons blk rest ih =>
    intro p m₁ m₂ h
    simp only [fill_primitive, h blk.unique_id]
    cases mapLookup blk.unique_id m₂ with
    | none => rfl
    | some sa =>
      obtain ⟨sem, acc⟩ := sa
      exact ih _ m₁ m₂ h

/-- **C2 counterexample.** With two semantic keys bound to the same unique
id, the decoded output depends on the iteration order of the extension's
attributes map (which Rust's `HashMap` does not fix across two
deserialisations of the same input): the same set of attribute entries in
two orders yields two different `DecodedPrimitive` values. -/
theorem C2_duplicate_id_counterexample :
    ([("TEXCOORD_0", 7), ("COLOR_0", 7)] : List (String × Nat)).Perm
      [("COLOR_0", 7), ("TEXCOORD_0", 7)] ∧
    prozes_out [0, 0, 0, 0, 0, 0, 0, 0] .U16 0 1 [⟨7, 2, 7⟩]
        ⟨.Triangles, none,
         [(.TexCoords 0, ⟨1, .F32, .Vec2⟩), (.Colors 0, ⟨1, .F32, .Vec4⟩)],
         none⟩
        ⟨0, [("TEXCOORD_0", 7), ("COLOR_0", 7)]⟩ ≠
      prozes_out [0, 0, 0, 0, 0, 0, 0, 0] .U16 0 1 [⟨7, 2, 7⟩]
        ⟨.Triangles, none,
         [(.TexCoords 0, ⟨1, .F32, .Vec2⟩), (.Colors 0, ⟨1, .F32, .Vec4⟩)],
         none⟩
        ⟨0, [("COLOR_0", 7), ("TEXCOORD_0", 7)]⟩ := by
  constructor
  · exact List.Perm.swap ("COLOR_0", 7) ("TEXCOORD_0", 7) []
  · intro heq
    have h1 : prozes_out [0, 0, 0, 0, 0, 0, 0, 0] .U16 0 1 [⟨7, 2, 7⟩]
        ⟨.Triangles, none,
         [(.TexCoords 0, ⟨1, .F32, .Vec2⟩), (.Colors 0, ⟨1, .F32, .Vec4⟩)],
         none⟩
        ⟨0, [("TEXCOORD_0", 7), ("COLOR_0", 7)]⟩ =
        .ok { indices := [], colors := [(0, [])] } := rfl
    have h2 : prozes_out [0, 0, 0, 0, 0, 0, 0, 0] .U16 0 1 [⟨7, 2, 7⟩]
        ⟨.Triangles, none,
         [(.TexCoords 0, ⟨1, .F32, .Vec2⟩), (.Colors 0, ⟨1, .F32, .Vec4⟩)],
         none⟩
        ⟨0, [("COLOR_0", 7), ("TEXCOORD_0", 7)]⟩ =
        .ok { indices := [],
              texcoords := [(0, as_f32n 2 [0, 0, 0, 0, 0, 0, 0, 0])] } := rfl
    rw [h1, h2] at heq
    have h3 := congrArg
      (fun r => match r with
        | PResult.ok o => o.texcoords.length
        | _ => 0) heq
    simp [as_f32n, chunksExact, chunksGo] at h3

/-- **C2 (amended).** For fixed inputs and fixed engine output bytes, the
decode is a pure function of its inputs together with the iteration order of
the extension's attributes map; whenever no two semantic keys are bound to
the same unique id (ids pairwise distinct), the output does not depend on
that order at all, so two calls on identical inputs yield bit-identical
outputs.  (The counterexample shows the order-independence genuinely fails
when two keys share one unique id.) -/
theorem C2_deterministic_when_ids_unique (attrsA attrsB : List (String × Nat))
    (bv : Nat) (raw : List Nat) (index_comp : DataType)
    (index_count vertex_count : Nat) (infos : List AttrInfo) (p : Primitive)
    (hperm : attrsA.Perm attrsB) (hnodup : (attrsA.map Prod.snd).Nodup) :
    prozes_out raw index_comp index_count vertex_count infos p ⟨bv, attrsA⟩ =
      prozes_out raw index_comp index_count vertex_count infos p
        ⟨bv, attrsB⟩ := by
  have hnodupB : (attrsB.map Prod.snd).Nodup :=
    (hperm.map Prod.snd).nodup hnodup
  have hfilter : ∀ id : Nat,
      attrsA.filter (fun kv => kv.2 == id) =
        attrsB.filter (fun kv => kv.2 == id) := by
    intro id
    exact perm_eq_of_length_le_one (hperm.filter _)
      (filter_id_length_le_one id attrsA hnodup)
  have hlook : ∀ id, mapLookup id (build_reverse_map attrsA p) =
      mapLookup id (build_reverse_map attrsB p) := by
    intro id
    show mapLookup id (attrsA.foldl (build_step p) []) =
      mapLookup id (attrsB.foldl (build_step p) [])
    rw [mapLookup_build_foldl, mapLookup_build_foldl,
      lastResolved_eq_find p id attrsA hnodup,
      lastResolved_eq_find p id attrsB hnodupB,
      find?_eq_head?_filter, find?_eq_head?_filter, hfilter id]
  simp only [prozes_out]
  cases hgi : get_indices raw (index_count * comp_size_bytes index_comp)
      index_comp with
  | err e => simp [hgi]
  | panic => simp [hgi]
  | ok idx =>
    simp only [hgi]
    cases hsl : slice_blocks raw vertex_count infos
        (index_count * comp_size_bytes index_comp) with
    | err e => simp [hsl]
    | panic => simp [hsl]
    | ok blocks =>
      simp only [hsl]
      rw [fill_primitive_congr blocks { indices := idx }
        (build_reverse_map attrsA p) (build_reverse_map attrsB p) hlook]

/-- Witness for the amended C2: swapping two distinct-id entries leaves the
decoded output unchanged. -/
theorem C2_deterministic_when_ids_unique_witness :
    prozes_out [0, 0, 0, 0, 0, 0, 0, 0] .U16 0 1 [⟨7, 2, 7⟩]
        ⟨.Triangles, none,
         [(.TexCoords 0, ⟨1, .F32, .Vec2⟩), (.Colors 0, ⟨1, .F32, .Vec4⟩)],
         none⟩
        ⟨0, [("TEXCOORD_0", 7), ("COLOR_0", 8)]⟩ =
      prozes_out [0, 0, 0, 0, 0, 0, 0, 0] .U16 0 1 [⟨7, 2, 7⟩]
        ⟨.Triangles, none,
         [(.TexCoords 0, ⟨1, .F32, .Vec2⟩), (.Colors 0, ⟨1, .F32, .Vec4⟩)],
         none⟩
        ⟨0, [("COLOR_0", 8), ("TEXCOORD_0", 7)]⟩ :=
  C2_deterministic_when_ids_unique
    [("TEXCOORD_0", 7), ("COLOR_0", 8)] [("COLOR_0", 8), ("TEXCOORD_0", 7)]
    0 [0, 0, 0, 0, 0, 0, 0, 0] .U16 0 1 [⟨7, 2, 7⟩]
    ⟨.Triangles, none,
     [(.TexCoords 0, ⟨1, .F32, .Vec2⟩), (.Colors 0, ⟨1, .F32, .Vec4⟩)],
     none⟩
    (List.Perm.swap ("COLOR_0", 8) ("TEXCOORD_0", 7) []) (by decide)

end DracoGltf
